import Mathlib

/-!
Verification of the ModForge slash-command grammar.

The definitions below are a shallow embedding of the command-detection code:

* `detect_commands`  embeds `detect_commands` from
  `.github/scripts/process_conversation.py` (lines 39-50 define
  `COMMAND_PATTERNS`, lines 96-122 the function).  Python exceptions
  (`match.group(i)` on a pattern with too few groups raises `IndexError:
  no such group`) are embedded as `Except.error`.
* `CommandProcessor.extract_commands` embeds `CommandProcessor._extract_commands`
  from `modforge-intellij-plugin/.github/scripts/process_comment_command.py`
  (lines 55-60 define the patterns, lines 90-129 the method).

The regular expressions used by the scripts are built from a small set of
constructs: case-sensitive literals, greedy `+` over a character class,
non-capturing alternation `(?:a|b)` preferring the left branch, and
capturing groups.  `matchRE` is a backtracking matcher for exactly those
constructs with Python `re` semantics (greedy with backtracking, leftmost
alternative first); `finditer` reproduces `re.finditer`: scan positions
left to right, take the match the engine finds first at the leftmost
position where one exists, continue after its end (advance one position
after an empty match).  The `re.MULTILINE` flag only changes `^`/`$`,
which none of the patterns use, so it has no effect and is not modelled.
-/

/-- Python's whitespace class `\s` for `str` patterns (also the set stripped
by `str.strip()`): ASCII whitespace, the C1 separators, and the Unicode
space separators. -/
def isPyWs (c : Char) : Bool :=
  c = ' ' || c = '\t' || c = '\n' || c = '\x0b' || c = '\x0c' || c = '\r' ||
  c = '\x1c' || c = '\x1d' || c = '\x1e' || c = '\x1f' || c = '\x85' ||
  c = '\xa0' || c = ' ' || (' ' ≤ c && c ≤ ' ') ||
  c = ' ' || c = ' ' || c = ' ' || c = ' ' || c = '　'

/-- The character classes appearing in the scripts' regexes:
`\s`, `[^"]`, `[^\s"]`, `[0-9,\s]`. -/
inductive CCls where
  | ws
  | notQuote
  | notWsQuote
  | digitCommaWs
deriving DecidableEq

/-- Membership of a character in a class. -/
def CCls.mem : CCls → Char → Bool
  | .ws, c => isPyWs c
  | .notQuote, c => c != '"'
  | .notWsQuote, c => !isPyWs c && c != '"'
  | .digitCommaWs, c => ('0' ≤ c && c ≤ '9') || c = ',' || isPyWs c

/-- The regex constructs used by the command patterns.  `str` is a
case-sensitive literal, `plus` is greedy `+` over a class, `grp i r` is
capturing group number `i`, `alt` is `(?:a|b)` preferring `a`. -/
inductive RE where
  | str : List Char → RE
  | plus : CCls → RE
  | grp : Nat → RE → RE
  | alt : RE → RE → RE
  | seq : RE → RE → RE

/-- Capture environment: group number paired with the captured text.
Later captures are prepended; lookup takes the first hit. -/
abbrev Caps := List (Nat × List Char)

/-- First `some` result of `f` over a list, in order. -/
def firstSome {α β : Type} (f : α → Option β) : List α → Option β
  | [] => none
  | a :: as =>
    match f a with
    | some b => some b
    | none => firstSome f as

/-- Backtracking matcher in continuation-passing style.  `matchRE r s caps k`
attempts to match `r` at the start of `s`; on each way the match can
succeed it calls `k` with the extended captures and the remaining suffix,
taking the first continuation result that is `some`.  Greedy `+` tries the
longest run of class characters first and backtracks one character at a
time, and `alt` tries the left branch first — Python `re` semantics. -/
def matchRE : RE → List Char → Caps →
    (Caps → List Char → Option (Caps × List Char)) → Option (Caps × List Char)
  | .str l, s, caps, k => if l.isPrefixOf s then k caps (s.drop l.length) else none
  | .plus c, s, caps, k =>
    let n := (s.takeWhile c.mem).length
    firstSome (fun m => k caps (s.drop m)) ((List.range n).map (fun i => n - i))
  | .seq a b, s, caps, k => matchRE a s caps (fun caps2 s2 => matchRE b s2 caps2 k)
  | .alt a b, s, caps, k =>
    match matchRE a s caps k with
    | some res => some res
    | none => matchRE b s caps k
  | .grp i a, s, caps, k =>
    matchRE a s caps (fun caps2 s2 => k ((i, s.take (s.length - s2.length)) :: caps2) s2)

/-- Try to match `r` exactly at the start of `s`; returns the captures and
the remaining suffix of the first (engine-preferred) match. -/
def tryMatch (r : RE) (s : List Char) : Option (Caps × List Char) :=
  matchRE r s [] (fun caps rest => some (caps, rest))

/-- Worker for `finditer`: the fuel bounds the number of scan steps.  Each
step either consumes the matched text (non-empty match) or advances one
position, so fuel `s.length + 1` never runs out. -/
def finditerAux (r : RE) : Nat → List Char → List Caps
  | 0, _ => []
  | fuel + 1, s =>
    match tryMatch r s, s with
    | some (caps, _), [] => [caps]
    | some (caps, remaining), c :: rest =>
      if remaining.length < (c :: rest).length then caps :: finditerAux r fuel remaining
      else caps :: finditerAux r fuel rest
    | none, [] => []
    | none, _ :: rest => finditerAux r fuel rest

/-- `re.finditer`: all non-overlapping matches, scanning left to right. -/
def finditer (r : RE) (s : List Char) : List Caps :=
  finditerAux r (s.length + 1) s

/-- `/<kw>\s+(?:"([^"]+)"|([^\s"]+))` — the quoted alternative captures
group 1, the unquoted one group 2. -/
def stdPattern (kwSlash : String) : RE :=
  .seq (.str kwSlash.data)
    (.seq (.plus .ws)
      (.alt (.seq (.str ['"']) (.seq (.grp 1 (.plus .notQuote)) (.str ['"'])))
            (.grp 2 (.plus .notWsQuote))))

/-- The argument alternation `(?:"([^"]+)"|([^\s"]+))` with group numbers
`i` (quoted) and `j` (unquoted). -/
def argAlt (i j : Nat) : RE :=
  .alt (.seq (.str ['"']) (.seq (.grp i (.plus .notQuote)) (.str ['"'])))
       (.grp j (.plus .notWsQuote))

/-- `/add\s+(?:"([^"]+)"|([^\s"]+))\s+to\s+(?:"([^"]+)"|([^\s"]+))`. -/
def addPattern : RE :=
  .seq (.str "/add".data)
    (.seq (.plus .ws)
      (.seq (argAlt 1 2)
        (.seq (.plus .ws)
          (.seq (.str "to".data)
            (.seq (.plus .ws) (argAlt 3 4))))))

/-- `/implement\s+(?:all|([0-9,\s]+))`. -/
def implementPattern : RE :=
  .seq (.str "/implement".data)
    (.seq (.plus .ws)
      (.alt (.str "all".data) (.grp 1 (.plus .digitCommaWs))))

/-- `/help` — note: no capture groups. -/
def helpPattern : RE := .str "/help".data

/-- The `COMMAND_PATTERNS` dict of `process_conversation.py`, in its
insertion (= iteration) order. -/
def COMMAND_PATTERNS : List (String × RE) :=
  [("fix", stdPattern "/fix"),
   ("improve", stdPattern "/improve"),
   ("document", stdPattern "/document"),
   ("add", addPattern),
   ("analyze", stdPattern "/analyze"),
   ("explain", stdPattern "/explain"),
   ("implement", implementPattern),
   ("refactor", stdPattern "/refactor"),
   ("test", stdPattern "/test"),
   ("help", helpPattern)]

/-- Number of capture groups a pattern declares (Python numbers them 1..n). -/
def RE.grpCount : RE → Nat
  | .str _ => 0
  | .plus _ => 0
  | .grp _ a => a.grpCount + 1
  | .alt a b => a.grpCount + b.grpCount
  | .seq a b => a.grpCount + b.grpCount

/-- First capture recorded for group `i`, if the group participated. -/
def capLookup : Caps → Nat → Option (List Char)
  | [], _ => none
  | (j, t) :: rest, i => if j = i then some t else capLookup rest i

/-- Python's `match.group(i)`: `IndexError: no such group` when `i` exceeds
the pattern's group count, `None` when the group did not participate. -/
def pyGroup (pat : RE) (caps : Caps) (i : Nat) : Except String (Option (List Char)) :=
  if i ≤ pat.grpCount then Except.ok (capLookup caps i) else Except.error "no such group"

/-- Python truthiness of `str | None`: `None` and `""` are falsy. -/
def pyTruthy : Option (List Char) → Bool
  | none => false
  | some l => !l.isEmpty

/-- View an optional captured text as an optional `String`. -/
def optStr (o : Option (List Char)) : Option String :=
  o.map (fun l => String.mk l)

/-- Python's `str.split(',')` (never merges separators; `''` splits to `['']`). -/
def splitCommas : List Char → List (List Char)
  | [] => [[]]
  | c :: rest =>
    if c = ',' then [] :: splitCommas rest
    else
      match splitCommas rest with
      | h :: t => (c :: h) :: t
      | [] => [[c]]

/-- Python's `str.strip()`. -/
def stripWs (l : List Char) : List Char :=
  ((l.dropWhile isPyWs).reverse.dropWhile isPyWs).reverse

/-- Python's `str.isdigit()` restricted to ASCII digits, which is exact on
every string reachable here (entries of a `[0-9,\s]+` capture). -/
def pyIsDigit (l : List Char) : Bool :=
  !l.isEmpty && l.all (fun c => '0' ≤ c && c ≤ '9')

/-- Decimal value of an all-digit string, as `int(...)` computes it. -/
def digitsToNat (l : List Char) : Nat :=
  l.foldl (fun acc c => acc * 10 + (c.toNat - '0'.toNat)) 0

/-- `[int(idx.strip()) for idx in m.split(',') if idx.strip().isdigit()]`. -/
def parseIndices (l : List Char) : List Int :=
  (splitCommas l).filterMap (fun tok =>
    if pyIsDigit (stripWs tok) then some (Int.ofNat (digitsToNat (stripWs tok))) else none)

/-- The argument payload attached to a detected command: a plain target
(`str | None`), the `add` dict `{'feature': .., 'target': ..}`, the
`implement` dicts `{'indices': [..]}` / `{'all': True}`, or `None`
(the comment script's `help`). -/
inductive CmdArg where
  | target : Option String → CmdArg
  | addArg : Option String → Option String → CmdArg
  | indices : List Int → CmdArg
  | allFlag : CmdArg
  | noArg : CmdArg
deriving DecidableEq, Repr

instance {ε α : Type} [DecidableEq ε] [DecidableEq α] : DecidableEq (Except ε α) := by
  intro x y
  cases x <;> cases y
  case error.error e f =>
    exact if h : e = f then .isTrue (by rw [h]) else .isFalse (by intro hc; cases hc; exact h rfl)
  case error.ok e a => exact .isFalse (by intro hc; cases hc)
  case ok.error a e => exact .isFalse (by intro hc; cases hc)
  case ok.ok a b =>
    exact if h : a = b then .isTrue (by rw [h]) else .isFalse (by intro hc; cases hc; exact h rfl)

/-- The per-match body of `detect_commands` (lines 103-120): the `add` and
`implement` branches, and the generic two-group branch that every other
command — including the group-less `/help` — falls into. -/
def processMatch (cmdType : String) (pat : RE) (caps : Caps) :
    Except String (String × CmdArg) :=
  if cmdType = "add" then do
    let g1 ← pyGroup pat caps 1
    let f ← if pyTruthy g1 then Except.ok g1 else pyGroup pat caps 2
    let g3 ← pyGroup pat caps 3
    let t ← if pyTruthy g3 then Except.ok g3 else pyGroup pat caps 4
    Except.ok (cmdType, CmdArg.addArg (optStr f) (optStr t))
  else if cmdType = "implement" then do
    let g1 ← pyGroup pat caps 1
    if pyTruthy g1 then
      Except.ok (cmdType, CmdArg.indices (parseIndices (g1.getD [])))
    else
      Except.ok (cmdType, CmdArg.allFlag)
  else do
    let g1 ← pyGroup pat caps 1
    if pyTruthy g1 then
      Except.ok (cmdType, CmdArg.target (optStr g1))
    else do
      let g2 ← pyGroup pat caps 2
      Except.ok (cmdType, CmdArg.target (optStr g2))

/-- One step of the inner `for match in matches` loop. -/
def innerStep (cmdType : String) (pat : RE) (acc : List (String × CmdArg))
    (caps : Caps) : Except String (List (String × CmdArg)) := do
  let c ← processMatch cmdType pat caps
  Except.ok (acc ++ [c])

/-- One step of the outer `for cmd_type, pattern in COMMAND_PATTERNS.items()`
loop: run `re.finditer` for this pattern and process every match. -/
def patStep (text : String) (acc : List (String × CmdArg)) (p : String × RE) :
    Except String (List (String × CmdArg)) :=
  (finditer p.2 text.data).foldlM (innerStep p.1 p.2) acc

/-- `detect_commands` of `process_conversation.py`.  A raised Python
exception is embedded as `Except.error`. -/
def detect_commands (text : String) : Except String (List (String × CmdArg)) :=
  COMMAND_PATTERNS.foldlM (patStep text) []

/-- `FIX_PATTERN` of `process_comment_command.py`. -/
def FIX_PATTERN : RE := stdPattern "/fix"

/-- `IMPROVE_PATTERN` of `process_comment_command.py`. -/
def IMPROVE_PATTERN : RE := stdPattern "/improve"

/-- `DOCUMENT_PATTERN` of `process_comment_command.py`. -/
def DOCUMENT_PATTERN : RE := stdPattern "/document"

/-- `ADD_PATTERN` of `process_comment_command.py`. -/
def ADD_PATTERN : RE := addPattern

/-- `EXPLAIN_PATTERN` of `process_comment_command.py`. -/
def EXPLAIN_PATTERN : RE := stdPattern "/explain"

/-- `HELP_PATTERN` of `process_comment_command.py`. -/
def HELP_PATTERN : RE := helpPattern

/-- `target = match.group(1) if match.group(1) else match.group(2)` for the
comment script, whose patterns always have the accessed groups. -/
def pickGroup (caps : Caps) (i j : Nat) : Option String :=
  if pyTruthy (capLookup caps i) then optStr (capLookup caps i)
  else optStr (capLookup caps j)

namespace CommandProcessor

/-- `CommandProcessor._extract_commands` of `process_comment_command.py`:
one `finditer` pass per pattern in source order (fix, improve, document,
add, explain), then a single `re.search` for `/help` appending one `help`
entry if any occurrence exists. -/
def extract_commands (comment_body : String) : List (String × CmdArg) :=
  let s := comment_body.data
  let fixCmds := (finditer FIX_PATTERN s).map
    (fun caps => ("fix", CmdArg.target (pickGroup caps 1 2)))
  let improveCmds := (finditer IMPROVE_PATTERN s).map
    (fun caps => ("improve", CmdArg.target (pickGroup caps 1 2)))
  let documentCmds := (finditer DOCUMENT_PATTERN s).map
    (fun caps => ("document", CmdArg.target (pickGroup caps 1 2)))
  let addCmds := (finditer ADD_PATTERN s).map
    (fun caps => ("add", CmdArg.addArg (pickGroup caps 1 2) (pickGroup caps 3 4)))
  let explainCmds := (finditer EXPLAIN_PATTERN s).map
    (fun caps => ("explain", CmdArg.target (pickGroup caps 1 2)))
  let helpCmds := if (finditer HELP_PATTERN s).isEmpty then []
    else [("help", CmdArg.noArg)]
  fixCmds ++ improveCmds ++ documentCmds ++ addCmds ++ explainCmds ++ helpCmds

end CommandProcessor

/-- Position of a kind name in a list of kind names. -/
def kindPosAux : List String → String → Nat
  | [], _ => 0
  | n :: rest, k => if n = k then 0 else kindPosAux rest k + 1

/-- Position of a command kind in the `COMMAND_PATTERNS` table. -/
def kindPos (k : String) : Nat :=
  kindPosAux (COMMAND_PATTERNS.map Prod.fst) k

/-- The invariant claimed for argument-carrying commands: a recognized
plain target, and both components of an `add`, are present and non-empty. -/
def targetsNonempty : String × CmdArg → Prop := fun e =>
  match e.2 with
  | CmdArg.target t => ∃ s, t = some s ∧ s ≠ ""
  | CmdArg.addArg f t => (∃ s, f = some s ∧ s ≠ "") ∧ (∃ s2, t = some s2 ∧ s2 ≠ "")
  | _ => True

/-!
## Helper lemmas about the matcher
-/

theorem ok_bind {ε α β : Type} (a : α) (f : α → Except ε β) :
    (Except.ok a >>= f) = f a := rfl

theorem error_bind {ε α β : Type} (e : ε) (f : α → Except ε β) :
    ((Except.error e : Except ε α) >>= f) = Except.error e := rfl

theorem except_bind_ok {ε α β : Type} {x : Except ε α} {f : α → Except ε β} {b : β}
    (h : x >>= f = Except.ok b) : ∃ a, x = Except.ok a ∧ f a = Except.ok b := by
  cases x with
  | ok a => exact ⟨a, rfl, h⟩
  | error e => rw [error_bind] at h; exact Except.noConfusion h

theorem firstSome_some {α β : Type} {f : α → Option β} {l : List α} {b : β}
    (h : firstSome f l = some b) : ∃ a ∈ l, f a = some b := by
  induction l with
  | nil => simp [firstSome] at h
  | cons a as ih =>
    rw [firstSome] at h
    cases hfa : f a with
    | some b2 =>
      rw [hfa] at h
      exact ⟨a, List.mem_cons_self a as, by rw [hfa]; exact h⟩
    | none =>
      rw [hfa] at h
      obtain ⟨a2, ha2, hfa2⟩ := ih h
      exact ⟨a2, List.mem_cons_of_mem a ha2, hfa2⟩

theorem takeWhile_length_le {α : Type} (p : α → Bool) (s : List α) :
    (s.takeWhile p).length ≤ s.length := by
  induction s with
  | nil => simp
  | cons a as ih =>
    rw [List.takeWhile_cons]
    by_cases hpa : p a
    · simp only [if_pos hpa, List.length_cons]; omega
    · simp [hpa]

theorem str_some {l s : List Char} {caps : Caps}
    {k : Caps → List Char → Option (Caps × List Char)} {res : Caps × List Char}
    (h : matchRE (.str l) s caps k = some res) :
    l.isPrefixOf s = true ∧ k caps (s.drop l.length) = some res := by
  have h' : (if l.isPrefixOf s then k caps (s.drop l.length) else none) = some res := h
  by_cases hp : l.isPrefixOf s
  · rw [if_pos hp] at h'; exact ⟨hp, h'⟩
  · rw [if_neg hp] at h'; exact Option.noConfusion h'

theorem seq_str_some {l : List Char} {B : RE} {s : List Char} {caps : Caps}
    {k : Caps → List Char → Option (Caps × List Char)} {res : Caps × List Char}
    (h : matchRE (.seq (.str l) B) s caps k = some res) :
    l.isPrefixOf s = true ∧ matchRE B (s.drop l.length) caps k = some res := by
  have h' : matchRE (.str l) s caps (fun c2 s2 => matchRE B s2 c2 k) = some res := h
  exact str_some h'

theorem seq_plus_some {c : CCls} {B : RE} {s : List Char} {caps : Caps}
    {k : Caps → List Char → Option (Caps × List Char)} {res : Caps × List Char}
    (h : matchRE (.seq (.plus c) B) s caps k = some res) :
    ∃ m, 1 ≤ m ∧ m ≤ s.length ∧ matchRE B (s.drop m) caps k = some res := by
  have h' : firstSome (fun m => matchRE B (s.drop m) caps k)
      ((List.range ((s.takeWhile c.mem).length)).map
        (fun i => (s.takeWhile c.mem).length - i)) = some res := h
  obtain ⟨m, hm, hres⟩ := firstSome_some h'
  simp only [List.mem_map, List.mem_range] at hm
  obtain ⟨i, hi, rfl⟩ := hm
  have hn : (s.takeWhile c.mem).length ≤ s.length := takeWhile_length_le c.mem s
  exact ⟨_, by omega, by omega, hres⟩

theorem grp_plus_some {i : Nat} {c : CCls} {s : List Char} {caps : Caps}
    {k : Caps → List Char → Option (Caps × List Char)} {res : Caps × List Char}
    (h : matchRE (.grp i (.plus c)) s caps k = some res) :
    ∃ m, 1 ≤ m ∧ m ≤ s.length ∧ k ((i, s.take m) :: caps) (s.drop m) = some res := by
  have h' : firstSome
      (fun m => k ((i, s.take (s.length - (s.drop m).length)) :: caps) (s.drop m))
      ((List.range ((s.takeWhile c.mem).length)).map
        (fun i2 => (s.takeWhile c.mem).length - i2)) = some res := h
  obtain ⟨m, hm, hres⟩ := firstSome_some h'
  simp only [List.mem_map, List.mem_range] at hm
  obtain ⟨j, hj, rfl⟩ := hm
  have hn : (s.takeWhile c.mem).length ≤ s.length := takeWhile_length_le c.mem s
  have hlen : s.length - (s.drop ((s.takeWhile c.mem).length - j)).length
      = (s.takeWhile c.mem).length - j := by
    rw [List.length_drop]; omega
  rw [hlen] at hres
  exact ⟨_, by omega, by omega, hres⟩

theorem seq_grp_plus_some {i : Nat} {c : CCls} {B : RE} {s : List Char} {caps : Caps}
    {k : Caps → List Char → Option (Caps × List Char)} {res : Caps × List Char}
    (h : matchRE (.seq (.grp i (.plus c)) B) s caps k = some res) :
    ∃ m, 1 ≤ m ∧ m ≤ s.length ∧
      matchRE B (s.drop m) ((i, s.take m) :: caps) k = some res := by
  have h' : matchRE (.grp i (.plus c)) s caps (fun c2 s2 => matchRE B s2 c2 k) = some res := h
  exact grp_plus_some h'

theorem take_ne_nil_of_le {s : List Char} {m : Nat} (h1 : 1 ≤ m) (h2 : m ≤ s.length) :
    s.take m ≠ [] := by
  intro hc
  have hlen := congrArg List.length hc
  rw [List.length_take] at hlen
  simp only [List.length_nil] at hlen
  rcases Nat.min_eq_zero_iff.mp hlen with h | h <;> omega

theorem argAlt_some {i j : Nat} {s : List Char} {caps : Caps}
    {k : Caps → List Char → Option (Caps × List Char)} {res : Caps × List Char}
    (h : matchRE (argAlt i j) s caps k = some res) :
    ∃ t s2, t ≠ [] ∧
      (k ((i, t) :: caps) s2 = some res ∨ k ((j, t) :: caps) s2 = some res) := by
  have h' : (match matchRE (.seq (.str ['"'])
        (.seq (.grp i (.plus .notQuote)) (.str ['"']))) s caps k with
    | some r => some r
    | none => matchRE (.grp j (.plus .notWsQuote)) s caps k) = some res := h
  cases hq : matchRE (.seq (.str ['"'])
      (.seq (.grp i (.plus .notQuote)) (.str ['"']))) s caps k with
  | some r =>
    rw [hq] at h'
    have hr : r = res := Option.some.inj h'
    subst hr
    obtain ⟨hp1, h1⟩ := seq_str_some hq
    obtain ⟨m, hm1, hm2, h2⟩ := seq_grp_plus_some h1
    obtain ⟨hp2, h3⟩ := str_some h2
    exact ⟨(s.drop 1).take m, _, take_ne_nil_of_le hm1 hm2, Or.inl h3⟩
  | none =>
    rw [hq] at h'
    obtain ⟨m, hm1, hm2, h2⟩ := grp_plus_some h'
    exact ⟨s.take m, _, take_ne_nil_of_le hm1 hm2, Or.inr h2⟩

/-- Claim C1 (code_bug evidence): `detect_commands` is not total — on the
input `"/help"` the generic branch executes `match.group(1)` against the
group-less `/help` pattern, raising `IndexError: no such group` instead of
returning a result. -/
theorem C1_detect_help_raises :
    detect_commands "/help" = Except.error "no such group" := by rfl

/-- Claim C2 (code_bug evidence): `detect("/help")` does not return
`[Help]` in `process_conversation.py` — it raises `IndexError: no such
group` — while the sibling `CommandProcessor._extract_commands` does
return exactly the single `help` command, showing the intended result. -/
theorem C2_help_divergence :
    CommandProcessor.extract_commands "/help" = [("help", CmdArg.noArg)] ∧
    detect_commands "/help" = Except.error "no such group" := by
  constructor
  · rfl
  · rfl

/-- Claim C3 counterexample: with the two commands in reversed textual
order, `detect_commands` still returns `[Fix, Document]` — the list is
grouped by pattern-table order, not by position in the input. -/
theorem C3_order_counterexample :
    detect_commands "/document b.java and also /fix a.java" =
      Except.ok [("fix", CmdArg.target (some "a.java")),
                 ("document", CmdArg.target (some "b.java"))] ∧
    detect_commands "/document b.java and also /fix a.java" ≠
      Except.ok [("document", CmdArg.target (some "b.java")),
                 ("fix", CmdArg.target (some "a.java"))] := by
  constructor
  · rfl
  · decide

/-- Claim C4 counterexample: `"/implement ,"` contains neither `all` nor
any digit after `/implement`, yet a `Command` is emitted: the class
`[0-9,\s]+` matches the bare comma and the digit filter leaves an empty
index list. -/
theorem C4_implement_counterexample :
    detect_commands "/implement ," = Except.ok [("implement", CmdArg.indices [])] ∧
    detect_commands "/implement ," ≠ Except.ok [] := by
  constructor
  · rfl
  · decide

/-- Claim C4 amended: the three concrete examples hold — `/implement
banana` (single space, no digit, no comma) yields nothing, a
comma-separated digit list yields those indices, and `all` yields the
all-selection. -/
theorem C4_implement_examples :
    detect_commands "/implement banana" = Except.ok [] ∧
    detect_commands "/implement 1, 3, 5" =
      Except.ok [("implement", CmdArg.indices [1, 3, 5])] ∧
    detect_commands "/implement all" =
      Except.ok [("implement", CmdArg.allFlag)] := by
  refine ⟨?_, ?_, ?_⟩
  · rfl
  · rfl
  · rfl

/-- Claim C5 counterexample: on `/fix ""` no command at all is returned —
the quoted alternative `"([^"]+)"` needs at least one character between
the quotes and the unquoted class excludes `"`, so the empty-quoted
occurrence is discarded, not returned with an empty target. -/
theorem C5_empty_quotes_counterexample :
    detect_commands "/fix \"\"" = Except.ok [] ∧
    detect_commands "/fix \"\"" ≠
      Except.ok [("fix", CmdArg.target (some ""))] := by
  constructor
  · rfl
  · decide

/-- Claim C5 amended: a keyword followed by an empty double-quoted string
matches neither alternative of the pattern and yields no match for that
occurrence. -/
theorem C5_empty_quotes_no_match :
    detect_commands "/fix \"\"" = Except.ok [] ∧
    detect_commands "/improve \"\"" = Except.ok [] := by
  constructor
  · rfl
  · rfl

/-- Claim C7 counterexample: an input containing `/help` twice does not
yield `Help` twice — `detect_commands` raises on the first `/help` match,
and the comment script reports `help` once however often it occurs
(a single `re.search`, not one entry per occurrence). -/
theorem C7_help_counterexample :
    detect_commands "/help /help" = Except.error "no such group" ∧
    CommandProcessor.extract_commands "/help /help" = [("help", CmdArg.noArg)] ∧
    ([("help", CmdArg.noArg)] : List (String × CmdArg)).length ≠ 2 := by
  refine ⟨?_, ?_, ?_⟩
  · rfl
  · rfl
  · decide

/-- Claim C7 amended: every occurrence of an argument-carrying command
yields its own entry (two `/fix` occurrences produce two `Fix` values),
while `help` is reported at most once per input by the comment script. -/
theorem C7_per_occurrence :
    detect_commands "/fix a.java /fix b.java" =
      Except.ok [("fix", CmdArg.target (some "a.java")),
                 ("fix", CmdArg.target (some "b.java"))] ∧
    CommandProcessor.extract_commands "/help /help" = [("help", CmdArg.noArg)] := by
  constructor
  · rfl
  · rfl

/-- Claim C8 counterexample: keyword matching is not case-insensitive —
`/FIX Foo.java` matches nothing (the patterns are compiled with
`re.MULTILINE` only, no `re.IGNORECASE`). -/
theorem C8_case_counterexample :
    detect_commands "/FIX Foo.java" = Except.ok [] ∧
    detect_commands "/FIX Foo.java" ≠
      Except.ok [("fix", CmdArg.target (some "Foo.java"))] := by
  constructor
  · rfl
  · decide

/-- Claim C8 amended: matching is case-sensitive — only the exact
lowercase keyword matches — and captured argument text preserves its
original case. -/
theorem C8_case_sensitive :
    detect_commands "/fix Foo.java" =
      Except.ok [("fix", CmdArg.target (some "Foo.java"))] ∧
    detect_commands "/FIX Foo.java" = Except.ok [] := by
  constructor
  · rfl
  · rfl

/-- Claim C9 counterexample: `/implement 0` produces `Indices([0])` — the
digit filter `idx.strip().isdigit()` accepts `"0"`, so the index sequence
is not restricted to positive integers. -/
theorem C9_zero_index_counterexample :
    detect_commands "/implement 0" = Except.ok [("implement", CmdArg.indices [0])] ∧
    ¬ (0 : Int) > 0 := by
  constructor
  · rfl
  · decide

/-- Claim C10 counterexample: round-trip fails for a bare non-whitespace
token containing a double quote — the unquoted class `[^\s"]+` stops at
the quote, so `/fix a"b` recovers target `a`, not `a"b`. -/
theorem C10_roundtrip_counterexample :
    detect_commands "/fix a\"b" = Except.ok [("fix", CmdArg.target (some "a"))] ∧
    detect_commands "/fix a\"b" ≠
      Except.ok [("fix", CmdArg.target (some "a\"b"))] := by
  constructor
  · rfl
  · decide

theorem stdPattern_caps {kw : String} {s : List Char} {caps : Caps} {rest : List Char}
    (h : tryMatch (stdPattern kw) s = some (caps, rest)) :
    ∃ t, t ≠ [] ∧ (caps = [(1, t)] ∨ caps = [(2, t)]) := by
  have h0 : matchRE (.seq (.str kw.data) (.seq (.plus .ws) (argAlt 1 2))) s []
      (fun caps2 rest2 => some (caps2, rest2)) = some (caps, rest) := h
  obtain ⟨hp, h1⟩ := seq_str_some h0
  obtain ⟨m, _, _, h2⟩ := seq_plus_some h1
  obtain ⟨t, s2, ht, hk⟩ := argAlt_some h2
  rcases hk with hk | hk
  · simp only [Option.some.injEq, Prod.mk.injEq] at hk
    exact ⟨t, ht, Or.inl hk.1.symm⟩
  · simp only [Option.some.injEq, Prod.mk.injEq] at hk
    exact ⟨t, ht, Or.inr hk.1.symm⟩

theorem addPattern_caps {s : List Char} {caps : Caps} {rest : List Char}
    (h : tryMatch addPattern s = some (caps, rest)) :
    ∃ t1 t2 i1 i2, t1 ≠ [] ∧ t2 ≠ [] ∧ (i1 = 1 ∨ i1 = 2) ∧ (i2 = 3 ∨ i2 = 4) ∧
      caps = [(i2, t2), (i1, t1)] := by
  have h0 : matchRE (.seq (.str "/add".data)
      (.seq (.plus .ws)
        (.seq (argAlt 1 2)
          (.seq (.plus .ws)
            (.seq (.str "to".data)
              (.seq (.plus .ws) (argAlt 3 4))))))) s []
      (fun caps2 rest2 => some (caps2, rest2)) = some (caps, rest) := h
  obtain ⟨hp, h1⟩ := seq_str_some h0
  obtain ⟨m1, _, _, h2⟩ := seq_plus_some h1
  have h2' : matchRE (argAlt 1 2) _ []
      (fun c2 s2 => matchRE (.seq (.plus .ws)
        (.seq (.str "to".data) (.seq (.plus .ws) (argAlt 3 4)))) s2 c2
          (fun caps2 rest2 => some (caps2, rest2))) = some (caps, rest) := h2
  obtain ⟨t1, s2, ht1, hk1⟩ := argAlt_some h2'
  rcases hk1 with hk1 | hk1
  all_goals
    obtain ⟨m2, _, _, h3⟩ := seq_plus_some hk1
    obtain ⟨hp2, h4⟩ := seq_str_some h3
    obtain ⟨m3, _, _, h5⟩ := seq_plus_some h4
    obtain ⟨t2, s3, ht2, hk2⟩ := argAlt_some h5
  · rcases hk2 with hk2 | hk2 <;>
      simp only [Option.some.injEq, Prod.mk.injEq] at hk2
    · exact ⟨t1, t2, 1, 3, ht1, ht2, Or.inl rfl, Or.inl rfl, hk2.1.symm⟩
    · exact ⟨t1, t2, 1, 4, ht1, ht2, Or.inl rfl, Or.inr rfl, hk2.1.symm⟩
  · rcases hk2 with hk2 | hk2 <;>
      simp only [Option.some.injEq, Prod.mk.injEq] at hk2
    · exact ⟨t1, t2, 2, 3, ht1, ht2, Or.inr rfl, Or.inl rfl, hk2.1.symm⟩
    · exact ⟨t1, t2, 2, 4, ht1, ht2, Or.inr rfl, Or.inr rfl, hk2.1.symm⟩

theorem finditerAux_mem {r : RE} :
    ∀ {fuel : Nat} {s : List Char} {caps : Caps},
    caps ∈ finditerAux r fuel s → ∃ s0 rest, tryMatch r s0 = some (caps, rest) := by
  intro fuel
  induction fuel with
  | zero => intro s caps h; simp [finditerAux] at h
  | succ n ih =>
    intro s caps h
    cases s with
    | nil =>
      cases htm : tryMatch r [] with
      | some pr =>
        obtain ⟨caps2, remaining⟩ := pr
        simp only [finditerAux, htm, List.mem_singleton] at h
        subst h
        exact ⟨[], remaining, htm⟩
      | none => simp [finditerAux, htm] at h
    | cons c rest =>
      cases htm : tryMatch r (c :: rest) with
      | some pr =>
        obtain ⟨caps2, remaining⟩ := pr
        simp only [finditerAux, htm] at h
        by_cases hlen : remaining.length < (c :: rest).length
        · rw [if_pos hlen] at h
          rcases List.mem_cons.mp h with rfl | h3
          · exact ⟨c :: rest, remaining, htm⟩
          · exact ih h3
        · rw [if_neg hlen] at h
          rcases List.mem_cons.mp h with rfl | h3
          · exact ⟨c :: rest, remaining, htm⟩
          · exact ih h3
      | none =>
        simp only [finditerAux, htm] at h
        exact ih h

theorem finditer_mem {r : RE} {s : List Char} {caps : Caps}
    (h : caps ∈ finditer r s) : ∃ s0 rest, tryMatch r s0 = some (caps, rest) :=
  finditerAux_mem h

theorem innerFold_ok {name : String} {pat : RE} :
    ∀ (capsList : List Caps) (acc res : List (String × CmdArg)),
    List.foldlM (innerStep name pat) acc capsList = Except.ok res →
    ∃ ext, res = acc ++ ext ∧
      ∀ e ∈ ext, ∃ caps ∈ capsList, processMatch name pat caps = Except.ok e := by
  intro capsList
  induction capsList with
  | nil =>
    intro acc res h
    simp only [List.foldlM_nil] at h
    have : acc = res := Except.ok.inj h
    exact ⟨[], by simp [this], by simp⟩
  | cons caps rest ih =>
    intro acc res h
    rw [List.foldlM_cons] at h
    obtain ⟨acc2, hstep, hrest⟩ := except_bind_ok h
    unfold innerStep at hstep
    obtain ⟨c, hc, hacc2⟩ := except_bind_ok hstep
    have hacc2' : acc ++ [c] = acc2 := Except.ok.inj hacc2
    subst hacc2'
    obtain ⟨ext, hres, hext⟩ := ih _ _ hrest
    refine ⟨c :: ext, by simp [hres], ?_⟩
    intro e he
    rcases List.mem_cons.mp he with rfl | h2
    · exact ⟨caps, List.mem_cons_self _ _, hc⟩
    · obtain ⟨caps2, hm, hp⟩ := hext e h2
      exact ⟨caps2, List.mem_cons_of_mem _ hm, hp⟩

theorem outerFold_ok {text : String} :
    ∀ (ps : List (String × RE)) (acc l : List (String × CmdArg)),
    List.foldlM (patStep text) acc ps = Except.ok l →
    ∃ ext, l = acc ++ ext ∧
      ∀ e ∈ ext, ∃ p ∈ ps, ∃ caps ∈ finditer p.2 text.data,
        processMatch p.1 p.2 caps = Except.ok e := by
  intro ps
  induction ps with
  | nil =>
    intro acc l h
    simp only [List.foldlM_nil] at h
    have : acc = l := Except.ok.inj h
    exact ⟨[], by simp [this], by simp⟩
  | cons p rest ih =>
    intro acc l h
    rw [List.foldlM_cons] at h
    obtain ⟨acc2, hstep, hrest⟩ := except_bind_ok h
    unfold patStep at hstep
    obtain ⟨ext1, hacc2, hext1⟩ := innerFold_ok _ _ _ hstep
    subst hacc2
    obtain ⟨ext2, hl, hext2⟩ := ih _ _ hrest
    refine ⟨ext1 ++ ext2, by rw [hl, List.append_assoc], ?_⟩
    intro e he
    rcases List.mem_append.mp he with h1 | h2
    · obtain ⟨caps, hc1, hc2⟩ := hext1 e h1
      exact ⟨p, List.mem_cons_self _ _, caps, hc1, hc2⟩
    · obtain ⟨q, hq, caps, hc1, hc2⟩ := hext2 e h2
      exact ⟨q, List.mem_cons_of_mem _ hq, caps, hc1, hc2⟩

theorem detect_commands_mem {text : String} {l : List (String × CmdArg)}
    (h : detect_commands text = Except.ok l) :
    ∀ e ∈ l, ∃ p ∈ COMMAND_PATTERNS, ∃ caps ∈ finditer p.2 text.data,
      processMatch p.1 p.2 caps = Except.ok e := by
  unfold detect_commands at h
  obtain ⟨ext, hl, hext⟩ := outerFold_ok _ _ _ h
  intro e he
  rw [hl, List.nil_append] at he
  exact hext e he

theorem processMatch_fst {name : String} {pat : RE} {caps : Caps} {e : String × CmdArg}
    (h : processMatch name pat caps = Except.ok e) : e.1 = name := by
  unfold processMatch at h
  by_cases h1 : name = "add"
  · rw [if_pos h1] at h
    obtain ⟨g1, hg1, h⟩ := except_bind_ok h
    try simp only at h
    by_cases h3 : pyTruthy g1
    · rw [if_pos h3] at h
      try simp only [ok_bind] at h
      obtain ⟨g3, hg3, h⟩ := except_bind_ok h
      try simp only at h
      by_cases h4 : pyTruthy g3
      · rw [if_pos h4] at h
        try simp only [ok_bind] at h
        have := Except.ok.inj h
        rw [← this]
      · rw [if_neg h4] at h
        obtain ⟨g4, hg4, h⟩ := except_bind_ok h
        try simp only at h
        have := Except.ok.inj h
        rw [← this]
    · rw [if_neg h3] at h
      obtain ⟨g2, hg2, h⟩ := except_bind_ok h
      try simp only at h
      obtain ⟨g3, hg3, h⟩ := except_bind_ok h
      try simp only at h
      by_cases h4 : pyTruthy g3
      · rw [if_pos h4] at h
        try simp only [ok_bind] at h
        have := Except.ok.inj h
        rw [← this]
      · rw [if_neg h4] at h
        obtain ⟨g4, hg4, h⟩ := except_bind_ok h
        try simp only at h
        have := Except.ok.inj h
        rw [← this]
  · rw [if_neg h1] at h
    by_cases h2 : name = "implement"
    · rw [if_pos h2] at h
      obtain ⟨g1, hg1, h⟩ := except_bind_ok h
      try simp only at h
      by_cases h3 : pyTruthy g1
      · rw [if_pos h3] at h
        have := Except.ok.inj h
        rw [← this]
      · rw [if_neg h3] at h
        have := Except.ok.inj h
        rw [← this]
    · rw [if_neg h2] at h
      obtain ⟨g1, hg1, h⟩ := except_bind_ok h
      try simp only at h
      by_cases h3 : pyTruthy g1
      · rw [if_pos h3] at h
        have := Except.ok.inj h
        rw [← this]
      · rw [if_neg h3] at h
        obtain ⟨g2, hg2, h⟩ := except_bind_ok h
        try simp only at h
        have := Except.ok.inj h
        rw [← this]

theorem processMatch_std {name : String} {pat : RE} (hg : pat.grpCount = 2)
    (hne1 : ¬ name = "add") (hne2 : ¬ name = "implement")
    {caps : Caps} {e : String × CmdArg} {t : List Char} (ht : t ≠ [])
    (hcaps : caps = [(1, t)] ∨ caps = [(2, t)])
    (h : processMatch name pat caps = Except.ok e) :
    e = (name, CmdArg.target (some (String.mk t))) := by
  have htr : pyTruthy (some t) = true := by
    simp [pyTruthy, List.isEmpty_iff, ht]
  unfold processMatch at h
  rw [if_neg hne1, if_neg hne2] at h
  rcases hcaps with rfl | rfl
  · have h1 : pyGroup pat [(1, t)] 1 = Except.ok (some t) := by
      simp [pyGroup, hg, capLookup]
    rw [h1] at h
    simp only [ok_bind] at h
    rw [if_pos htr] at h
    exact (Except.ok.inj h).symm
  · have h1 : pyGroup pat [(2, t)] 1 = Except.ok none := by
      simp [pyGroup, hg, capLookup]
    rw [h1] at h
    simp only [ok_bind] at h
    rw [if_neg (by simp [pyTruthy])] at h
    have h2 : pyGroup pat [(2, t)] 2 = Except.ok (some t) := by
      simp [pyGroup, hg, capLookup]
    rw [h2] at h
    simp only [ok_bind] at h
    exact (Except.ok.inj h).symm

theorem processMatch_add {caps : Caps} {e : String × CmdArg} {t1 t2 : List Char}
    (ht1 : t1 ≠ []) (ht2 : t2 ≠ [])
    {i1 i2 : Nat} (hi1 : i1 = 1 ∨ i1 = 2) (hi2 : i2 = 3 ∨ i2 = 4)
    (hcaps : caps = [(i2, t2), (i1, t1)])
    (h : processMatch "add" addPattern caps = Except.ok e) :
    e = ("add", CmdArg.addArg (some (String.mk t1)) (some (String.mk t2))) := by
  subst hcaps
  have hg : addPattern.grpCount = 4 := rfl
  have htr1 : pyTruthy (some t1) = true := by
    simp [pyTruthy, List.isEmpty_iff, ht1]
  have htr2 : pyTruthy (some t2) = true := by
    simp [pyTruthy, List.isEmpty_iff, ht2]
  have hfn : pyTruthy none = false := rfl
  unfold processMatch at h
  rw [if_pos rfl] at h
  rcases hi1 with rfl | rfl <;> rcases hi2 with rfl | rfl
  · have e1 : pyGroup addPattern [(3, t2), (1, t1)] 1 = Except.ok (some t1) := by
      simp [pyGroup, hg, capLookup]
    have e3 : pyGroup addPattern [(3, t2), (1, t1)] 3 = Except.ok (some t2) := by
      simp [pyGroup, hg, capLookup]
    rw [e1] at h
    simp only [ok_bind] at h
    rw [if_pos htr1] at h
    try simp only [ok_bind] at h
    rw [e3] at h
    simp only [ok_bind] at h
    rw [if_pos htr2] at h
    try simp only [ok_bind] at h
    exact (Except.ok.inj h).symm
  · have e1 : pyGroup addPattern [(4, t2), (1, t1)] 1 = Except.ok (some t1) := by
      simp [pyGroup, hg, capLookup]
    have e3 : pyGroup addPattern [(4, t2), (1, t1)] 3 = Except.ok none := by
      simp [pyGroup, hg, capLookup]
    have e4 : pyGroup addPattern [(4, t2), (1, t1)] 4 = Except.ok (some t2) := by
      simp [pyGroup, hg, capLookup]
    rw [e1] at h
    simp only [ok_bind] at h
    rw [if_pos htr1] at h
    try simp only [ok_bind] at h
    rw [e3] at h
    simp only [ok_bind] at h
    rw [if_neg (by simp [pyTruthy])] at h
    rw [e4] at h
    simp only [ok_bind] at h
    exact (Except.ok.inj h).symm
  · have e1 : pyGroup addPattern [(3, t2), (2, t1)] 1 = Except.ok none := by
      simp [pyGroup, hg, capLookup]
    have e2 : pyGroup addPattern [(3, t2), (2, t1)] 2 = Except.ok (some t1) := by
      simp [pyGroup, hg, capLookup]
    have e3 : pyGroup addPattern [(3, t2), (2, t1)] 3 = Except.ok (some t2) := by
      simp [pyGroup, hg, capLookup]
    rw [e1] at h
    simp only [ok_bind] at h
    rw [if_neg (by simp [pyTruthy])] at h
    rw [e2] at h
    simp only [ok_bind] at h
    rw [e3] at h
    simp only [ok_bind] at h
    rw [if_pos htr2] at h
    try simp only [ok_bind] at h
    exact (Except.ok.inj h).symm
  · have e1 : pyGroup addPattern [(4, t2), (2, t1)] 1 = Except.ok none := by
      simp [pyGroup, hg, capLookup]
    have e2 : pyGroup addPattern [(4, t2), (2, t1)] 2 = Except.ok (some t1) := by
      simp [pyGroup, hg, capLookup]
    have e3 : pyGroup addPattern [(4, t2), (2, t1)] 3 = Except.ok none := by
      simp [pyGroup, hg, capLookup]
    have e4 : pyGroup addPattern [(4, t2), (2, t1)] 4 = Except.ok (some t2) := by
      simp [pyGroup, hg, capLookup]
    rw [e1] at h
    simp only [ok_bind] at h
    rw [if_neg (by simp [pyTruthy])] at h
    rw [e2] at h
    simp only [ok_bind] at h
    rw [e3] at h
    simp only [ok_bind] at h
    rw [if_neg (by simp [pyTruthy])] at h
    rw [e4] at h
    simp only [ok_bind] at h
    exact (Except.ok.inj h).symm

theorem processMatch_implement {caps : Caps} {e : String × CmdArg}
    (h : processMatch "implement" implementPattern caps = Except.ok e) :
    (∃ g, e = ("implement", CmdArg.indices (parseIndices g))) ∨
      e = ("implement", CmdArg.allFlag) := by
  unfold processMatch at h
  rw [if_neg (by decide), if_pos rfl] at h
  have hg : implementPattern.grpCount = 1 := rfl
  have h1 : pyGroup implementPattern caps 1 = Except.ok (capLookup caps 1) := by
    simp [pyGroup, hg]
  rw [h1] at h
  simp only [ok_bind] at h
  by_cases h3 : pyTruthy (capLookup caps 1)
  · rw [if_pos h3] at h
    exact Or.inl ⟨_, (Except.ok.inj h).symm⟩
  · rw [if_neg h3] at h
    exact Or.inr (Except.ok.inj h).symm

theorem processMatch_help {caps : Caps} {e : String × CmdArg}
    (h : processMatch "help" helpPattern caps = Except.ok e) : False := by
  unfold processMatch at h
  rw [if_neg (by decide), if_neg (by decide)] at h
  have h1 : pyGroup helpPattern caps 1 = Except.error "no such group" := by
    simp [pyGroup, helpPattern, RE.grpCount]
  rw [h1, error_bind] at h
  exact Except.noConfusion h

theorem parseIndices_nonneg {l : List Char} {x : Int} (hx : x ∈ parseIndices l) :
    0 ≤ x := by
  unfold parseIndices at hx
  rw [List.mem_filterMap] at hx
  obtain ⟨tok, _, htok⟩ := hx
  by_cases hd : pyIsDigit (stripWs tok)
  · rw [if_pos hd] at htok
    have := Option.some.inj htok
    rw [← this]
    exact Int.ofNat_nonneg _
  · rw [if_neg hd] at htok
    exact Option.noConfusion htok

theorem detect_entry_shape {text : String} {l : List (String × CmdArg)}
    (h : detect_commands text = Except.ok l) :
    ∀ e ∈ l,
      (∃ name t, t ≠ [] ∧ e = (name, CmdArg.target (some (String.mk t)))) ∨
      (∃ t1 t2, t1 ≠ [] ∧ t2 ≠ [] ∧
        e = ("add", CmdArg.addArg (some (String.mk t1)) (some (String.mk t2)))) ∨
      (∃ g, e = ("implement", CmdArg.indices (parseIndices g))) ∨
      e = ("implement", CmdArg.allFlag) := by
  intro e he
  obtain ⟨p, hp, caps, hcaps, hok⟩ := detect_commands_mem h e he
  simp only [COMMAND_PATTERNS, List.mem_cons, List.not_mem_nil, or_false] at hp
  rcases hp with rfl | rfl | rfl | rfl | rfl | rfl | rfl | rfl | rfl | rfl
  · obtain ⟨s0, rest, htm⟩ := finditer_mem hcaps
    obtain ⟨t, ht, hc⟩ := stdPattern_caps htm
    exact Or.inl ⟨"fix", t, ht, processMatch_std (by rfl) (by decide) (by decide) ht hc hok⟩
  · obtain ⟨s0, rest, htm⟩ := finditer_mem hcaps
    obtain ⟨t, ht, hc⟩ := stdPattern_caps htm
    exact Or.inl ⟨"improve", t, ht, processMatch_std (by rfl) (by decide) (by decide) ht hc hok⟩
  · obtain ⟨s0, rest, htm⟩ := finditer_mem hcaps
    obtain ⟨t, ht, hc⟩ := stdPattern_caps htm
    exact Or.inl ⟨"document", t, ht, processMatch_std (by rfl) (by decide) (by decide) ht hc hok⟩
  · obtain ⟨s0, rest, htm⟩ := finditer_mem hcaps
    obtain ⟨t1, t2, i1, i2, ht1, ht2, hi1, hi2, hc⟩ := addPattern_caps htm
    exact Or.inr (Or.inl ⟨t1, t2, ht1, ht2, processMatch_add ht1 ht2 hi1 hi2 hc hok⟩)
  · obtain ⟨s0, rest, htm⟩ := finditer_mem hcaps
    obtain ⟨t, ht, hc⟩ := stdPattern_caps htm
    exact Or.inl ⟨"analyze", t, ht, processMatch_std (by rfl) (by decide) (by decide) ht hc hok⟩
  · obtain ⟨s0, rest, htm⟩ := finditer_mem hcaps
    obtain ⟨t, ht, hc⟩ := stdPattern_caps htm
    exact Or.inl ⟨"explain", t, ht, processMatch_std (by rfl) (by decide) (by decide) ht hc hok⟩
  · rcases processMatch_implement hok with ⟨g, hg⟩ | hg
    · exact Or.inr (Or.inr (Or.inl ⟨g, hg⟩))
    · exact Or.inr (Or.inr (Or.inr hg))
  · obtain ⟨s0, rest, htm⟩ := finditer_mem hcaps
    obtain ⟨t, ht, hc⟩ := stdPattern_caps htm
    exact Or.inl ⟨"refactor", t, ht, processMatch_std (by rfl) (by decide) (by decide) ht hc hok⟩
  · obtain ⟨s0, rest, htm⟩ := finditer_mem hcaps
    obtain ⟨t, ht, hc⟩ := stdPattern_caps htm
    exact Or.inl ⟨"test", t, ht, processMatch_std (by rfl) (by decide) (by decide) ht hc hok⟩
  · exact (processMatch_help hok).elim

/-- Claim C6 (confirmed): every argument-carrying command returned by
`detect_commands` has a present, non-empty target (and for `add`, a
present, non-empty feature as well): both regex alternatives for an
argument require at least one character, so a recognized command never
carries an empty captured string. -/
theorem C6_targets_nonempty : ∀ (text : String) (l : List (String × CmdArg)),
    detect_commands text = Except.ok l → ∀ e ∈ l, targetsNonempty e := by
  intro text l h e he
  rcases detect_entry_shape h e he with
    ⟨name, t, ht, rfl⟩ | ⟨t1, t2, ht1, ht2, rfl⟩ | ⟨g, rfl⟩ | rfl
  · exact ⟨String.mk t, rfl, fun hc => ht (congrArg String.data hc)⟩
  · exact ⟨⟨String.mk t1, rfl, fun hc => ht1 (congrArg String.data hc)⟩,
           ⟨String.mk t2, rfl, fun hc => ht2 (congrArg String.data hc)⟩⟩
  · trivial
  · trivial

/-- Witness for C6 at a concrete input. -/
theorem C6_targets_nonempty_witness :
    detect_commands "/fix a.java" = Except.ok [("fix", CmdArg.target (some "a.java"))] ∧
    targetsNonempty ("fix", CmdArg.target (some "a.java")) :=
  ⟨by rfl, C6_targets_nonempty "/fix a.java" [("fix", CmdArg.target (some "a.java"))]
    (by rfl) _ (by simp)⟩

/-- Claim C9 amended: the index sequence of every `Implement` command is a
list of non-negative integers (parsed by `int(..)` from all-digit entries);
zero is allowed, so the original "positive integers" claim fails. -/
theorem C9_indices_nonneg : ∀ (text : String) (l : List (String × CmdArg)),
    detect_commands text = Except.ok l →
    ∀ e ∈ l, ∀ idxs, e.2 = CmdArg.indices idxs → ∀ x ∈ idxs, 0 ≤ x := by
  intro text l h e he idxs hidx x hx
  rcases detect_entry_shape h e he with
    ⟨name, t, ht, rfl⟩ | ⟨t1, t2, ht1, ht2, rfl⟩ | ⟨g, rfl⟩ | rfl
  · exact absurd hidx (by simp)
  · exact absurd hidx (by simp)
  · simp only [CmdArg.indices.injEq] at hidx
    rw [← hidx] at hx
    exact parseIndices_nonneg hx
  · exact absurd hidx (by simp)

/-- Witness for C9 at a concrete input. -/
theorem C9_indices_nonneg_witness :
    detect_commands "/implement 0" = Except.ok [("implement", CmdArg.indices [0])] ∧
    (0 : Int) ≤ 0 :=
  ⟨by rfl, C9_indices_nonneg "/implement 0" [("implement", CmdArg.indices [0])]
    (by rfl) ("implement", CmdArg.indices [0]) (by simp) [0] rfl 0 (by simp)⟩

theorem foldlM_pairwise {text : String} :
    ∀ (ps : List (String × RE)) (acc l : List (String × CmdArg)),
    List.Pairwise (fun p q => kindPos p.1 ≤ kindPos q.1) ps →
    List.foldlM (patStep text) acc ps = Except.ok l →
    List.Pairwise (fun a b => kindPos a.1 ≤ kindPos b.1) acc →
    (∀ e ∈ acc, ∀ q ∈ ps, kindPos e.1 ≤ kindPos q.1) →
    List.Pairwise (fun a b => kindPos a.1 ≤ kindPos b.1) l := by
  intro ps
  induction ps with
  | nil =>
    intro acc l _ h hacc _
    simp only [List.foldlM_nil] at h
    have : acc = l := Except.ok.inj h
    rwa [← this]
  | cons p rest ih =>
    intro acc l hps h hacc hcross
    rw [List.foldlM_cons] at h
    obtain ⟨acc2, hstep, hrest⟩ := except_bind_ok h
    unfold patStep at hstep
    obtain ⟨ext, hacc2, hext⟩ := innerFold_ok _ _ _ hstep
    subst hacc2
    rw [List.pairwise_cons] at hps
    have hfst : ∀ e ∈ ext, e.1 = p.1 := by
      intro e he2
      obtain ⟨caps, _, hokk⟩ := hext e he2
      exact processMatch_fst hokk
    apply ih _ _ hps.2 hrest
    · rw [List.pairwise_append]
      refine ⟨hacc, ?_, ?_⟩
      · apply List.pairwise_of_forall_mem_list
        intro a ha b hb
        rw [hfst a ha, hfst b hb]
      · intro a ha b hb
        rw [hfst b hb]
        exact hcross a ha p (List.mem_cons_self _ _)
    · intro e he2 q hq
      rcases List.mem_append.mp he2 with h1 | h2
      · exact hcross e h1 q (List.mem_cons_of_mem _ hq)
      · rw [hfst e h2]
        exact hps.1 q hq

/-- Claim C3 amended: the returned list is ordered by the fixed pattern
table (fix, improve, document, add, analyze, explain, implement, refactor,
test, help) — every pair of entries appears in non-decreasing table
position, i.e. results are grouped by kind in table order, not by textual
position. -/
theorem C3_kind_grouped_order : ∀ (text : String) (l : List (String × CmdArg)),
    detect_commands text = Except.ok l →
    List.Pairwise (fun a b => kindPos a.1 ≤ kindPos b.1) l := by
  intro text l h
  exact foldlM_pairwise COMMAND_PATTERNS [] l (by decide) h (by simp) (by simp)

/-- Witness for C3 at a concrete input. -/
theorem C3_kind_grouped_order_witness :
    List.Pairwise (fun a b => kindPos a.1 ≤ kindPos b.1)
      [(("fix" : String), CmdArg.target (some "a.java")),
       (("document" : String), CmdArg.target (some "b.java"))] :=
  C3_kind_grouped_order "/fix a.java and also /document b.java"
    [("fix", CmdArg.target (some "a.java")), ("document", CmdArg.target (some "b.java"))]
    (by rfl)

theorem clean_not_ws {c : Char} (h : CCls.notWsQuote.mem c = true) :
    CCls.ws.mem c = false := by
  simp only [CCls.mem, Bool.and_eq_true, Bool.not_eq_true'] at h
  exact h.1

theorem clean_not_quote {c : Char} (h : CCls.notWsQuote.mem c = true) :
    (('"' : Char) == c) = false := by
  simp only [CCls.mem, Bool.and_eq_true, bne_iff_ne] at h
  have hne : ¬ (('"' : Char) = c) := fun hc => h.2 hc.symm
  simp [hne]

theorem takeWhile_eq_nil_of_all {p : Char → Bool} {l : List Char}
    (h : ∀ c ∈ l, p c = false) : l.takeWhile p = [] := by
  cases l with
  | nil => rfl
  | cons a l2 =>
    rw [List.takeWhile_cons]
    simp [h a (List.mem_cons_self _ _)]

theorem tryMatch_ws_none {l : List Char} {B : RE} {s : List Char}
    (h : l.isPrefixOf s = true → List.takeWhile CCls.ws.mem (s.drop l.length) = []) :
    tryMatch (.seq (.str l) (.seq (.plus .ws) B)) s = none := by
  unfold tryMatch
  by_cases hp : l.isPrefixOf s
  · have h0 : matchRE (.seq (.str l) (.seq (.plus .ws) B)) s []
        (fun caps rest => some (caps, rest)) =
      (if l.isPrefixOf s then
        firstSome (fun m => matchRE B ((s.drop l.length).drop m) []
          (fun caps rest => some (caps, rest)))
          ((List.range ((List.takeWhile CCls.ws.mem (s.drop l.length)).length)).map
            (fun i => (List.takeWhile CCls.ws.mem (s.drop l.length)).length - i))
      else none) := rfl
    rw [h0, if_pos hp, h hp]
    rfl
  · have h0 : matchRE (.seq (.str l) (.seq (.plus .ws) B)) s []
        (fun caps rest => some (caps, rest)) =
      (if l.isPrefixOf s then
        matchRE (.seq (.plus .ws) B) (s.drop l.length) []
          (fun caps rest => some (caps, rest))
      else none) := rfl
    rw [h0, if_neg hp]

theorem tryMatch_str_none {l s : List Char} (h : l.isPrefixOf s = false) :
    tryMatch (.str l) s = none := by
  unfold tryMatch
  have h0 : matchRE (.str l) s [] (fun caps rest => some (caps, rest)) =
      (if l.isPrefixOf s then some (([] : Caps), s.drop l.length) else none) := rfl
  rw [h0, if_neg (by simp [h])]

theorem finditerAux_eq_nil {r : RE} :
    ∀ {fuel : Nat} {s : List Char},
    (∀ n, tryMatch r (s.drop n) = none) → finditerAux r fuel s = [] := by
  intro fuel
  induction fuel with
  | zero => intro s _; rfl
  | succ n ih =>
    intro s h
    have h0 := h 0
    rw [List.drop_zero] at h0
    cases s with
    | nil => simp [finditerAux, h0]
    | cons c rest =>
      simp only [finditerAux, h0]
      exact ih (fun n2 => by
        have := h (n2 + 1)
        rwa [List.drop_succ_cons] at this)

theorem finditer_eq_nil {r : RE} {s : List Char}
    (h : ∀ n, tryMatch r (s.drop n) = none) : finditer r s = [] :=
  finditerAux_eq_nil h

theorem firstSome_cons_some {α β : Type} {f : α → Option β} {a : α} {l : List α} {b : β}
    (h : f a = some b) : firstSome f (a :: l) = some b := by
  rw [firstSome, h]

theorem grp_plus_eval {i : Nat} {cl : CCls} {s : List Char} (hs : s ≠ [])
    (hall : ∀ c ∈ s, cl.mem c = true) :
    matchRE (.grp i (.plus cl)) s [] (fun caps rest => some (caps, rest)) =
      some ([(i, s)], []) := by
  obtain ⟨c, t', rfl⟩ : ∃ c t', s = c :: t' := by
    cases s with
    | nil => exact absurd rfl hs
    | cons c t' => exact ⟨c, t', rfl⟩
  have h0 : matchRE (.grp i (.plus cl)) (c :: t') [] (fun caps rest => some (caps, rest)) =
      firstSome (fun m => some (([(i, (c :: t').take ((c :: t').length - ((c :: t').drop m).length))] : Caps),
          (c :: t').drop m))
        ((List.range ((List.takeWhile cl.mem (c :: t')).length)).map
          (fun i2 => (List.takeWhile cl.mem (c :: t')).length - i2)) := rfl
  rw [h0, List.takeWhile_eq_self_iff.mpr hall, List.length_cons,
      List.range_succ_eq_map, List.map_cons]
  apply firstSome_cons_some
  have hn0 : t'.length + 1 - 0 = (c :: t').length := by simp
  have htk : List.take (t'.length + 1) (c :: t') = c :: t' := by
    rw [← List.length_cons c t', List.take_length]
  rw [hn0, List.drop_length, List.length_nil, Nat.sub_zero, htk]

theorem matchStd_eval {kw t : List Char} (ht : t ≠ [])
    (hclean : ∀ c ∈ t, CCls.notWsQuote.mem c = true) :
    tryMatch (.seq (.str kw) (.seq (.plus .ws) (argAlt 1 2))) (kw ++ ' ' :: t) =
      some ([(2, t)], []) := by
  have hpre : kw.isPrefixOf (kw ++ ' ' :: t) = true :=
    List.isPrefixOf_iff_prefix.mpr (List.prefix_append kw _)
  unfold tryMatch
  have h0 : matchRE (.seq (.str kw) (.seq (.plus .ws) (argAlt 1 2))) (kw ++ ' ' :: t) []
      (fun caps rest => some (caps, rest)) =
    (if kw.isPrefixOf (kw ++ ' ' :: t) then
        matchRE (.seq (.plus .ws) (argAlt 1 2)) ((kw ++ ' ' :: t).drop kw.length) []
          (fun caps rest => some (caps, rest))
      else none) := rfl
  rw [h0, if_pos hpre, List.drop_left]
  have htwt : List.takeWhile CCls.ws.mem t = [] :=
    takeWhile_eq_nil_of_all (fun c hc => clean_not_ws (hclean c hc))
  have htw : List.takeWhile CCls.ws.mem (' ' :: t) = [' '] := by
    rw [List.takeWhile_cons, if_pos (by rfl), htwt]
  have h1 : matchRE (.seq (.plus .ws) (argAlt 1 2)) (' ' :: t) []
      (fun caps rest => some (caps, rest)) =
    firstSome (fun m => matchRE (argAlt 1 2) ((' ' :: t).drop m) []
        (fun caps rest => some (caps, rest)))
      ((List.range ((List.takeWhile CCls.ws.mem (' ' :: t)).length)).map
        (fun i => (List.takeWhile CCls.ws.mem (' ' :: t)).length - i)) := rfl
  rw [h1, htw]
  have h2 : ((List.range (([' '] : List Char).length)).map
      (fun i => ([' '] : List Char).length - i)) = [1] := by decide
  rw [h2]
  apply firstSome_cons_some
  show matchRE (argAlt 1 2) t [] (fun caps rest => some (caps, rest)) = some ([(2, t)], [])
  obtain ⟨c, t', rfl⟩ : ∃ c t', t = c :: t' := by
    cases t with
    | nil => exact absurd rfl ht
    | cons c t' => exact ⟨c, t', rfl⟩
  have hq : matchRE (.seq (.str ['"'])
      (.seq (.grp 1 (.plus .notQuote)) (.str ['"']))) (c :: t') []
      (fun caps rest => some (caps, rest)) = none := by
    have hq0 : matchRE (.seq (.str ['"'])
        (.seq (.grp 1 (.plus .notQuote)) (.str ['"']))) (c :: t') []
        (fun caps rest => some (caps, rest)) =
      (if List.isPrefixOf ['"'] (c :: t') then
          matchRE (.seq (.grp 1 (.plus .notQuote)) (.str ['"'])) ((c :: t').drop 1) []
            (fun caps rest => some (caps, rest))
        else none) := rfl
    have hp : List.isPrefixOf ['"'] (c :: t') = false := by
      show (('"' : Char) == c && List.isPrefixOf [] t') = false
      rw [clean_not_quote (hclean c (List.mem_cons_self _ _))]
      rfl
    rw [hq0, if_neg (by simp [hp])]
  have halt : matchRE (argAlt 1 2) (c :: t') [] (fun caps rest => some (caps, rest)) =
      matchRE (.grp 2 (.plus .notWsQuote)) (c :: t') []
        (fun caps rest => some (caps, rest)) := by
    have ha0 : matchRE (argAlt 1 2) (c :: t') [] (fun caps rest => some (caps, rest)) =
      (match matchRE (.seq (.str ['"'])
          (.seq (.grp 1 (.plus .notQuote)) (.str ['"']))) (c :: t') []
          (fun caps rest => some (caps, rest)) with
        | some r => some r
        | none => matchRE (.grp 2 (.plus .notWsQuote)) (c :: t') []
            (fun caps rest => some (caps, rest))) := rfl
    rw [ha0, hq]
  rw [halt]
  exact grp_plus_eval (by simp) hclean

theorem finditer_single {r : RE} {c : Char} {s' : List Char} {caps : Caps}
    (h1 : tryMatch r (c :: s') = some (caps, []))
    (h2 : tryMatch r [] = none) :
    finditer r (c :: s') = [caps] := by
  show finditerAux r ((c :: s').length + 1) (c :: s') = [caps]
  rw [List.length_cons]
  simp only [finditerAux, h1]
  rw [if_pos (by simp)]
  rw [h2]

theorem fixS_ws_profile {t : List Char}
    (hclean : ∀ c ∈ t, CCls.notWsQuote.mem c = true) :
    ∀ m, m ≠ 4 →
      List.takeWhile CCls.ws.mem (('/' :: 'f' :: 'i' :: 'x' :: ' ' :: t).drop m) = [] := by
  intro m hm
  rcases m with _ | _ | _ | _ | _ | n
  · show List.takeWhile CCls.ws.mem ('/' :: 'f' :: 'i' :: 'x' :: ' ' :: t) = []
    rw [List.takeWhile_cons, if_neg (by decide)]
  · show List.takeWhile CCls.ws.mem ('f' :: 'i' :: 'x' :: ' ' :: t) = []
    rw [List.takeWhile_cons, if_neg (by decide)]
  · show List.takeWhile CCls.ws.mem ('i' :: 'x' :: ' ' :: t) = []
    rw [List.takeWhile_cons, if_neg (by decide)]
  · show List.takeWhile CCls.ws.mem ('x' :: ' ' :: t) = []
    rw [List.takeWhile_cons, if_neg (by decide)]
  · exact absurd rfl hm
  · show List.takeWhile CCls.ws.mem (t.drop n) = []
    exact takeWhile_eq_nil_of_all
      (fun c hc => clean_not_ws (hclean c (List.drop_subset n t hc)))

theorem tryMatch_kw_none_of_profile {l : List Char} {B : RE} {S : List Char}
    (hprof : ∀ m, m ≠ 4 → List.takeWhile CCls.ws.mem (S.drop m) = [])
    (hlen4 : ∀ n, n + l.length = 4 → l.isPrefixOf (S.drop n) = false) :
    ∀ n, tryMatch (.seq (.str l) (.seq (.plus .ws) B)) (S.drop n) = none := by
  intro n
  apply tryMatch_ws_none
  intro hp
  rw [List.drop_drop]
  by_cases h4 : n + l.length = 4
  · rw [hlen4 n h4] at hp
    exact Bool.noConfusion hp
  · exact hprof _ h4

theorem tryMatch_help_none {S : List Char}
    (h : ¬ List.IsInfix ("/help".data) S) :
    ∀ n, tryMatch helpPattern (S.drop n) = none := by
  intro n
  show tryMatch (.str ("/help".data)) (S.drop n) = none
  apply tryMatch_str_none
  by_cases hb : ("/help".data).isPrefixOf (S.drop n)
  · exfalso
    apply h
    have hpre : ("/help".data) <+: (S.drop n) := List.isPrefixOf_iff_prefix.mp hb
    exact hpre.isInfix.trans (List.drop_suffix n S).isInfix
  · exact Bool.eq_false_iff.mpr hb

theorem processMatch_std_eval {name : String} {pat : RE} (hg : pat.grpCount = 2)
    (hne1 : ¬ name = "add") (hne2 : ¬ name = "implement")
    {t : List Char} :
    processMatch name pat [(2, t)] =
      Except.ok (name, CmdArg.target (some (String.mk t))) := by
  unfold processMatch
  rw [if_neg hne1, if_neg hne2]
  have h1 : pyGroup pat [(2, t)] 1 = Except.ok none := by
    simp [pyGroup, hg, capLookup]
  rw [h1]
  simp only [ok_bind]
  rw [if_neg (by simp [pyTruthy])]
  have h2 : pyGroup pat [(2, t)] 2 = Except.ok (some t) := by
    simp [pyGroup, hg, capLookup]
  rw [h2]
  simp only [ok_bind]
  rfl

theorem detect_fix_roundtrip (text : String) (t : List Char) (ht : t ≠ [])
    (hdata : text.data = '/' :: 'f' :: 'i' :: 'x' :: ' ' :: t)
    (hclean : ∀ c ∈ t, CCls.notWsQuote.mem c = true)
    (hnh : ¬ List.IsInfix ("/help".data) ('/' :: 'f' :: 'i' :: 'x' :: ' ' :: t)) :
    detect_commands text =
      Except.ok [("fix", CmdArg.target (some (String.mk t)))] := by
  have hprof := fixS_ws_profile hclean
  have hfix : finditer (stdPattern "/fix") ('/' :: 'f' :: 'i' :: 'x' :: ' ' :: t) =
      [[(2, t)]] := by
    apply finditer_single
    · show tryMatch (.seq (.str ("/fix".data)) (.seq (.plus .ws) (argAlt 1 2)))
        ("/fix".data ++ ' ' :: t) = some ([(2, t)], [])
      exact matchStd_eval ht hclean
    · exact tryMatch_ws_none (fun hp => absurd hp (by decide))
  have himprove : finditer (stdPattern "/improve")
      ('/' :: 'f' :: 'i' :: 'x' :: ' ' :: t) = [] :=
    finditer_eq_nil (tryMatch_kw_none_of_profile hprof
      (fun n h => absurd h (by rw [show ("/improve".data).length = 8 from rfl]; omega)))
  have hdocument : finditer (stdPattern "/document")
      ('/' :: 'f' :: 'i' :: 'x' :: ' ' :: t) = [] :=
    finditer_eq_nil (tryMatch_kw_none_of_profile hprof
      (fun n h => absurd h (by rw [show ("/document".data).length = 9 from rfl]; omega)))
  have hadd : finditer addPattern ('/' :: 'f' :: 'i' :: 'x' :: ' ' :: t) = [] :=
    finditer_eq_nil (tryMatch_kw_none_of_profile hprof
      (fun n h => by
        have h0 : n = 0 := by
          rw [show ("/add".data).length = 4 from rfl] at h; omega
        subst h0
        rfl))
  have hanalyze : finditer (stdPattern "/analyze")
      ('/' :: 'f' :: 'i' :: 'x' :: ' ' :: t) = [] :=
    finditer_eq_nil (tryMatch_kw_none_of_profile hprof
      (fun n h => absurd h (by rw [show ("/analyze".data).length = 8 from rfl]; omega)))
  have hexplain : finditer (stdPattern "/explain")
      ('/' :: 'f' :: 'i' :: 'x' :: ' ' :: t) = [] :=
    finditer_eq_nil (tryMatch_kw_none_of_profile hprof
      (fun n h => absurd h (by rw [show ("/explain".data).length = 8 from rfl]; omega)))
  have himplement : finditer implementPattern
      ('/' :: 'f' :: 'i' :: 'x' :: ' ' :: t) = [] :=
    finditer_eq_nil (tryMatch_kw_none_of_profile hprof
      (fun n h => absurd h (by rw [show ("/implement".data).length = 10 from rfl]; omega)))
  have hrefactor : finditer (stdPattern "/refactor")
      ('/' :: 'f' :: 'i' :: 'x' :: ' ' :: t) = [] :=
    finditer_eq_nil (tryMatch_kw_none_of_profile hprof
      (fun n h => absurd h (by rw [show ("/refactor".data).length = 9 from rfl]; omega)))
  have htest : finditer (stdPattern "/test")
      ('/' :: 'f' :: 'i' :: 'x' :: ' ' :: t) = [] :=
    finditer_eq_nil (tryMatch_kw_none_of_profile hprof
      (fun n h => absurd h (by rw [show ("/test".data).length = 5 from rfl]; omega)))
  have hhelp : finditer helpPattern ('/' :: 'f' :: 'i' :: 'x' :: ' ' :: t) = [] :=
    finditer_eq_nil (tryMatch_help_none hnh)
  unfold detect_commands COMMAND_PATTERNS
  simp only [List.foldlM_cons, List.foldlM_nil]
  unfold patStep
  rw [hdata]
  rw [hfix, himprove, hdocument, hadd, hanalyze, hexplain, himplement,
      hrefactor, htest, hhelp]
  simp only [List.foldlM_cons, List.foldlM_nil]
  unfold innerStep
  rw [processMatch_std_eval (by rfl) (by decide) (by decide)]
  simp only [ok_bind, List.nil_append]
  rfl

/-- Claim C10 amended: round-trip holds on generated command strings whose
argument shapes avoid the excluded characters (bare tokens without
whitespace or double quotes, nonempty quote-free quoted strings, `all` or
a comma-separated positive-integer list) and that do not embed a `/help`
occurrence: proved in general for `fix` with an arbitrary such bare token,
and on a representative string for every other kind of the grammar
table. -/
theorem C10_roundtrip_amended :
    (∀ (text : String) (t : List Char), t ≠ [] →
      text.data = '/' :: 'f' :: 'i' :: 'x' :: ' ' :: t →
      (∀ c ∈ t, CCls.notWsQuote.mem c = true) →
      ¬ List.IsInfix ("/help".data) ('/' :: 'f' :: 'i' :: 'x' :: ' ' :: t) →
      detect_commands text =
        Except.ok [("fix", CmdArg.target (some (String.mk t)))]) ∧
    detect_commands "/fix GenerateCodeAction.java" =
      Except.ok [("fix", CmdArg.target (some "GenerateCodeAction.java"))] ∧
    detect_commands "/improve \"x y\"" =
      Except.ok [("improve", CmdArg.target (some "x y"))] ∧
    detect_commands "/document README.md" =
      Except.ok [("document", CmdArg.target (some "README.md"))] ∧
    detect_commands "/add \"dark mode toggle\" to MetricsPanel.java" =
      Except.ok [("add", CmdArg.addArg (some "dark mode toggle")
                                       (some "MetricsPanel.java"))] ∧
    detect_commands "/analyze Main.java" =
      Except.ok [("analyze", CmdArg.target (some "Main.java"))] ∧
    detect_commands "/explain Runner.java" =
      Except.ok [("explain", CmdArg.target (some "Runner.java"))] ∧
    detect_commands "/implement all" =
      Except.ok [("implement", CmdArg.allFlag)] ∧
    detect_commands "/implement 1, 3, 5" =
      Except.ok [("implement", CmdArg.indices [1, 3, 5])] ∧
    detect_commands "/refactor Util.java" =
      Except.ok [("refactor", CmdArg.target (some "Util.java"))] ∧
    detect_commands "/test Runner.java" =
      Except.ok [("test", CmdArg.target (some "Runner.java"))] := by
  refine ⟨?_, ?_, ?_, ?_, ?_, ?_, ?_, ?_, ?_, ?_, ?_⟩
  · intro text t ht hdata hclean hnh
    exact detect_fix_roundtrip text t ht hdata hclean hnh
  all_goals rfl

/-- Witness for C10 applying the general round-trip part at a concrete
generated command string. -/
theorem C10_roundtrip_witness :
    detect_commands "/fix Main.java" =
      Except.ok [("fix", CmdArg.target (some "Main.java"))] :=
  C10_roundtrip_amended.1 "/fix Main.java" ("Main.java".data)
    (by decide) rfl (by decide) (by decide)
